import Mathlib

/-!
# Verification of the koyeb-db expiring key-value store (`src/app.js`)

Shallow embedding of the Express application in `src/app.js`: an HTTP
key-value store holding one record per user key, persisted wholesale as a
JSON document, with a 30-day retention window refreshed on read and a
lazy sweep that runs before every request.

Modelling conventions:
* JSON values are the inductive `JsonValue` (numbers as `Int`; the claims
  under study only exercise integers, and JS float formatting is not load
  bearing for any of them).
* The JS object `data` read from / written to `global.json` is an
  association list `Store` with unique keys (JS objects cannot hold
  duplicate keys; `NodupKeys` states this where a proof needs it).
  `JSON.parse ∘ JSON.stringify` is the identity on such documents, so a
  handler's `readData()` is modelled as receiving the current `Store`
  value and `writeData(data)` as returning the new one together with a
  `persisted` flag recording that the file was rewritten.
* Timestamps (`Date.now()`) are `Nat` milliseconds.
* `JSON.stringify(json)` for the 5 MB size check is implemented
  character-for-character (`stringifyVal`), and its UTF-8 byte count
  (`dataSize`) mirrors `Buffer.byteLength(JSON.stringify(json), 'utf8')`.
-/

/-- Arbitrary JSON values as stored by the service.  Numbers are modelled
as integers (see the module header). -/
inductive JsonValue where
  | null : JsonValue
  | bool (b : Bool) : JsonValue
  | num (n : Int) : JsonValue
  | str (s : String) : JsonValue
  | arr (elems : List JsonValue) : JsonValue
  | obj (fields : List (String × JsonValue)) : JsonValue

/-- `THIRTY_DAYS_MS = 30 * 24 * 60 * 60 * 1000` from `src/app.js` line 8. -/
def THIRTY_DAYS_MS : Nat := 30 * 24 * 60 * 60 * 1000

/-- `MAX_JSON_SIZE = 5 * 1024 * 1024` from `src/app.js` line 9. -/
def MAX_JSON_SIZE : Nat := 5 * 1024 * 1024

/-- `MAX_DB_SIZE = 2 * 1024 * 1024 * 1024` from `src/app.js` line 11. -/
def MAX_DB_SIZE : Nat := 2 * 1024 * 1024 * 1024

/-- Lower-case hexadecimal digit, used for JSON control-character escapes. -/
def hexDigit (n : Nat) : Char :=
  if n < 10 then Char.ofNat (48 + n) else Char.ofNat (87 + n)

/-- How `JSON.stringify` renders one character inside a string literal:
`"` and `\` are backslash-escaped, the named control characters use their
short escapes, other control characters use `\u00xx`, and every other
character stands for itself. -/
def escapeChar (c : Char) : List Char :=
  if c = Char.ofNat 34 then [Char.ofNat 92, Char.ofNat 34]
  else if c = Char.ofNat 92 then [Char.ofNat 92, Char.ofNat 92]
  else if c = Char.ofNat 8 then [Char.ofNat 92, 'b']
  else if c = Char.ofNat 12 then [Char.ofNat 92, 'f']
  else if c = Char.ofNat 10 then [Char.ofNat 92, 'n']
  else if c = Char.ofNat 13 then [Char.ofNat 92, 'r']
  else if c = Char.ofNat 9 then [Char.ofNat 92, 't']
  else if c.toNat < 32 then
    [Char.ofNat 92, 'u', '0', '0', hexDigit (c.toNat / 16), hexDigit (c.toNat % 16)]
  else [c]

/-- Escape every character of a string body. -/
def escString : List Char → List Char
  | [] => []
  | c :: t => escapeChar c ++ escString t

/-- A JSON string literal: opening quote, escaped body, closing quote. -/
def quoteStr (s : String) : List Char :=
  Char.ofNat 34 :: (escString s.data ++ [Char.ofNat 34])

mutual

/-- `JSON.stringify(v)` (compact form, no spacing), as a character list. -/
def stringifyVal : JsonValue → List Char
  | .null => "null".data
  | .bool true => "true".data
  | .bool false => "false".data
  | .num n => (toString n).data
  | .str s => quoteStr s
  | .arr xs => Char.ofNat 91 :: (stringifyArr xs ++ [Char.ofNat 93])
  | .obj fs => Char.ofNat 123 :: (stringifyObj fs ++ [Char.ofNat 125])

/-- Comma-separated serialization of array elements. -/
def stringifyArr : List JsonValue → List Char
  | [] => []
  | [x] => stringifyVal x
  | x :: y :: t => stringifyVal x ++ Char.ofNat 44 :: stringifyArr (y :: t)

/-- Comma-separated serialization of object members (`"key":value`). -/
def stringifyObj : List (String × JsonValue) → List Char
  | [] => []
  | [(k, v)] => quoteStr k ++ Char.ofNat 58 :: stringifyVal v
  | (k, v) :: m :: t =>
    (quoteStr k ++ Char.ofNat 58 :: stringifyVal v) ++ Char.ofNat 44 :: stringifyObj (m :: t)

end

/-- UTF-8 byte count of a character list. -/
def utf8Len : List Char → Nat
  | [] => 0
  | c :: t => c.utf8Size + utf8Len t

/-- `Buffer.byteLength(JSON.stringify(json), 'utf8')` from `src/app.js`
line 85: the UTF-8 byte size of the serialized payload. -/
def dataSize (v : JsonValue) : Nat := utf8Len (stringifyVal v)

/-- JavaScript truthiness test `!json` on a JSON value (line 81):
`null`, `false`, `0` and the empty string are falsy; arrays and objects
(including `\x7b\x7d`) are always truthy. -/
def isFalsyVal : JsonValue → Bool
  | .null => true
  | .bool b => !b
  | .num n => n == 0
  | .str s => s.data.isEmpty
  | .arr _ => false
  | .obj _ => false

/-- One stored record: `\x7b timeRemove, data \x7d` from `src/app.js`
lines 93–96. -/
structure Record where
  timeRemove : Nat
  data : JsonValue

/-- The persisted document: one entry per user key, in insertion order.
JS objects cannot hold duplicate keys; `NodupKeys` expresses that. -/
abbrev Store : Type := List (String × Record)

/-- Property lookup `data[key]`: first binding of `key`, if any. -/
def alookup {β : Type} : List (String × β) → String → Option β
  | [], _ => none
  | (k, v) :: t, key => if k = key then some v else alookup t key

/-- Property assignment `data[key] = v`: replace the binding in place if
present (JS keeps the original insertion position), otherwise append. -/
def setKey {β : Type} : List (String × β) → String → β → List (String × β)
  | [], key, v => [(key, v)]
  | (k, w) :: t, key, v =>
    if k = key then (key, v) :: t else (k, w) :: setKey t key v

/-- Property removal `delete data[key]`. -/
def eraseKey {β : Type} : List (String × β) → String → List (String × β)
  | [], _ => []
  | (k, w) :: t, key =>
    if k = key then eraseKey t key else (k, w) :: eraseKey t key

/-- Uniqueness of keys, an invariant of every JS object document. -/
def NodupKeys {β : Type} (s : List (String × β)) : Prop :=
  (s.map Prod.fst).Nodup

/-- `removeInactiveUsers` (`src/app.js` lines 28–43): drop every record
with `timeRemove <= now`; the boolean is the `modified` flag, which
decides whether `writeData` runs, so it records whether the persisted
document was rewritten. -/
def removeInactiveUsers (s : Store) (now : Nat) : Store × Bool :=
  (s.filter (fun e => decide (now < e.2.timeRemove)),
   s.any (fun e => decide (e.2.timeRemove ≤ now)))

/-- An HTTP response body: plain text, a JSON value, or an HTML page. -/
inductive Body where
  | text (s : String) : Body
  | json (v : JsonValue) : Body
  | html (s : String) : Body

/-- Is the body a JSON document (as produced by `res.json`)? -/
def isJsonBody : Body → Bool
  | .json _ => true
  | _ => false

/-- An HTTP response: status code and body. -/
structure Resp where
  status : Nat
  body : Body

/-- Result of running one handler: the document value now on disk, whether
`writeData` was called during the handler, and the response sent. -/
structure HRes where
  store : Store
  persisted : Bool
  resp : Resp

/-- The `POST /write/:userId` handler (`src/app.js` lines 77–100).
`bodyJson` is `req.body.json` (`none` when the field is absent). -/
def writeHandler (s : Store) (userId : String) (bodyJson : Option JsonValue)
    (now : Nat) : HRes :=
  match bodyJson with
  | none => ⟨s, false, ⟨400, .text "Missing json body parameter"⟩⟩
  | some v =>
    if isFalsyVal v then ⟨s, false, ⟨400, .text "Missing json body parameter"⟩⟩
    else if MAX_JSON_SIZE < dataSize v then
      ⟨s, false, ⟨400, .text "JSON size exceeds the maximum limit of 5 MB"⟩⟩
    else
      ⟨setKey s userId ⟨now + THIRTY_DAYS_MS, v⟩, true,
        ⟨200, .text ("Data for user " ++ userId ++ " has been written")⟩⟩

/-- The Store-level `Put` operation (`src/app.js` lines 91–97): insert or
replace the record for `userId` with expiry `now + THIRTY_DAYS_MS` and
persist.  It is the write handler after its validation gates. -/
def storePut (s : Store) (userId : String) (v : JsonValue) (now : Nat) : Store :=
  setKey s userId ⟨now + THIRTY_DAYS_MS, v⟩

/-- The `GET /read/:userId` handler (`src/app.js` lines 102–115): on a
hit, reset `timeRemove` to `now + THIRTY_DAYS_MS`, persist, and send the
stored value; on a miss send `\x7b\x7d`. -/
def readHandler (s : Store) (userId : String) (now : Nat) : HRes :=
  match alookup s userId with
  | some r =>
    ⟨setKey s userId ⟨now + THIRTY_DAYS_MS, r.data⟩, true, ⟨200, .json r.data⟩⟩
  | none => ⟨s, false, ⟨200, .json (.obj [])⟩⟩

/-- The `GET /delete/:userId` handler (`src/app.js` lines 117–128). -/
def deleteHandler (s : Store) (userId : String) : HRes :=
  match alookup s userId with
  | some _ =>
    ⟨eraseKey s userId, true,
      ⟨200, .text ("Data for user " ++ userId ++ " has been deleted")⟩⟩
  | none => ⟨s, false, ⟨404, .text ("No data found for user " ++ userId)⟩⟩

/-- `getRemainingDbSpace` (`src/app.js` lines 50–52); the source does not
clamp, so the result is a possibly negative integer. -/
def getRemainingDbSpace (usedSize : Int) : Int :=
  (MAX_DB_SIZE : Int) - usedSize

/-- Two-digit zero padding for the fractional part of `toFixed(2)`. -/
def pad2 (n : Int) : String :=
  if n < 10 then "0" ++ toString n else toString n

/-- `(bytes / (1024 * 1024)).toFixed(2)`: the megabyte figure with two
decimals.  The source divides IEEE doubles; this model rounds the exact
rational, which can differ from the double rounding only in the last
printed digit and is irrelevant to every claim treated here. -/
def mbFixed2 (bytes : Int) : String :=
  let hundredths : Int := (bytes * 100 + 524288) / 1048576
  toString (hundredths / 100) ++ "." ++ pad2 (hundredths % 100)

/-- The `GET /dbinfo` handler (`src/app.js` lines 60–75).  `fileSize` is
`getFileSizeInBytes(DATA_FILE)`, the byte size of the persisted document
currently on disk.  The response is the HTML fragment built by
`res.send`; no JSON representation is produced. -/
def dbinfoHandler (s : Store) (fileSize : Nat) : HRes :=
  let usedSize : Int := (fileSize : Int)
  let remainingSize : Int := getRemainingDbSpace usedSize
  ⟨s, false, ⟨200, .html (
    "\n    <p>Database Size Information:</p>\n    <ul>\n      <li>Used Size: "
      ++ mbFixed2 usedSize ++ " MB</li>\n      <li>Remaining Size: "
      ++ mbFixed2 remainingSize ++ " MB</li>\n      <li>Maximum Size: "
      ++ mbFixed2 (MAX_DB_SIZE : Int) ++ " MB</li>\n    </ul>\n  ")⟩⟩

/-- One inbound request.  `GET /` (the static documentation page) is
presentation glue outside the store core and is omitted. -/
inductive Req where
  | write (userId : String) (bodyJson : Option JsonValue) : Req
  | read (userId : String) : Req
  | delete (userId : String) : Req
  | dbinfo (fileSize : Nat) : Req

/-- A full request cycle: the sweep middleware (`src/app.js` lines 54–58)
runs first with the current time, then the matching route handler runs on
the swept document. -/
def applyReq (s : Store) (r : Req) (now : Nat) : HRes :=
  let s₁ := (removeInactiveUsers s now).1
  match r with
  | .write k b => writeHandler s₁ k b now
  | .read k => readHandler s₁ k now
  | .delete k => deleteHandler s₁ k
  | .dbinfo fileSize => dbinfoHandler s₁ fileSize

/-- A request-level read: sweep, then the read handler. -/
def readRequest (s : Store) (userId : String) (now : Nat) : HRes :=
  applyReq s (.read userId) now

/-- Bookkeeping for the retention invariant: `aux` maps each key to the
timestamp of its most recent successful write or successful read.  A step
updates it exactly when the corresponding handler stores a record for the
key: a write that passes both validation gates, or a read that finds the
key after the sweep. -/
def touchUpd (s : Store) (aux : List (String × Nat)) (r : Req) (now : Nat) :
    List (String × Nat) :=
  let s₁ := (removeInactiveUsers s now).1
  match r with
  | .write k (some v) =>
    if isFalsyVal v then aux
    else if MAX_JSON_SIZE < dataSize v then aux
    else setKey aux k now
  | .write _ none => aux
  | .read k =>
    match alookup s₁ k with
    | some _ => setKey aux k now
    | none => aux
  | .delete _ => aux
  | .dbinfo _ => aux

/-- Run a timed request trace, threading the document and the
last-access-time map of `touchUpd`. -/
def runRequests : Store → List (String × Nat) → List (Req × Nat) →
    Store × List (String × Nat)
  | s, aux, [] => (s, aux)
  | s, aux, (r, now) :: rest =>
    runRequests (applyReq s r now).store (touchUpd s aux r now) rest

/-- The time of the most recent successful write or read of `k` in a
trace started from the empty document. -/
def lastAccessTime (tr : List (Req × Nat)) (k : String) : Option Nat :=
  alookup (runRequests [] [] tr).2 k

/-- Repeated calls of the delete handler on the same key:
`iterDelete s k n` is the result of the `(n+1)`-th call. -/
def iterDelete (s : Store) (userId : String) : Nat → HRes
  | 0 => deleteHandler s userId
  | n + 1 => deleteHandler (iterDelete s userId n).store userId

/-- A string of `n` repetitions of the letter `a`; payloads of exactly
this shape pin down the 5 MB boundary of the write size check. -/
def aString (n : Nat) : JsonValue :=
  .str (String.mk (List.replicate n 'a'))

/-! ## Association-list lemmas -/

theorem alookup_setKey_self {β : Type} (s : List (String × β)) (k : String) (v : β) :
    alookup (setKey s k v) k = some v := by
  induction s with
  | nil => simp [setKey, alookup]
  | cons e t ih =>
    obtain ⟨k₀, w⟩ := e
    by_cases h : k₀ = k
    · simp [setKey, h, alookup]
    · simp [setKey, h, alookup, ih]

theorem alookup_setKey_ne {β : Type} (s : List (String × β)) {k q : String} (v : β)
    (h : q ≠ k) : alookup (setKey s k v) q = alookup s q := by
  induction s with
  | nil => simp [setKey, alookup, Ne.symm h]
  | cons e t ih =>
    obtain ⟨k₀, w⟩ := e
    by_cases hk : k₀ = k
    · subst hk; simp [setKey, alookup, Ne.symm h]
    · simp [setKey, hk, alookup, ih]

theorem alookup_eq_none_of_not_mem_keys {β : Type} {s : List (String × β)} {k : String}
    (h : k ∉ s.map Prod.fst) : alookup s k = none := by
  induction s with
  | nil => simp [alookup]
  | cons e t ih =>
    obtain ⟨k₀, w⟩ := e
    simp only [List.map_cons, List.mem_cons] at h
    push_neg at h
    simp [alookup, Ne.symm h.1, ih h.2]

theorem mem_of_alookup {β : Type} {s : List (String × β)} {k : String} {v : β}
    (h : alookup s k = some v) : (k, v) ∈ s := by
  induction s with
  | nil => simp [alookup] at h
  | cons e t ih =>
    obtain ⟨k₀, w⟩ := e
    by_cases hk : k₀ = k
    · subst hk
      simp [alookup] at h
      simp [h]
    · simp [alookup, hk] at h
      exact List.mem_cons_of_mem _ (ih h)

theorem alookup_filter_of_pos {β : Type} {s : List (String × β)} {k : String} {v : β}
    {p : String × β → Bool} (hl : alookup s k = some v) (hp : p (k, v) = true) :
    alookup (s.filter p) k = some v := by
  induction s with
  | nil => simp [alookup] at hl
  | cons e t ih =>
    obtain ⟨k₀, w⟩ := e
    by_cases hk : k₀ = k
    · subst hk
      simp [alookup] at hl
      subst hl
      simp [List.filter_cons, hp, alookup]
    · simp [alookup, hk] at hl
      cases he : p (k₀, w) <;> simp [List.filter_cons, he, alookup, hk, ih hl]

theorem alookup_filter_of_none {β : Type} {s : List (String × β)} {k : String}
    {p : String × β → Bool} (hl : alookup s k = none) :
    alookup (s.filter p) k = none := by
  induction s with
  | nil => simp [alookup]
  | cons e t ih =>
    obtain ⟨k₀, w⟩ := e
    by_cases hk : k₀ = k
    · subst hk; simp [alookup] at hl
    · simp [alookup, hk] at hl
      cases he : p (k₀, w) <;> simp [List.filter_cons, he, alookup, hk, ih hl]

theorem alookup_filter_of_neg {β : Type} {s : List (String × β)} {k : String} {v : β}
    {p : String × β → Bool} (hnd : NodupKeys s) (hl : alookup s k = some v)
    (hp : p (k, v) = false) : alookup (s.filter p) k = none := by
  induction s with
  | nil => simp [alookup] at hl
  | cons e t ih =>
    obtain ⟨k₀, w⟩ := e
    simp only [NodupKeys, List.map_cons, List.nodup_cons] at hnd
    by_cases hk : k₀ = k
    · subst hk
      simp [alookup] at hl
      subst hl
      simp [List.filter_cons, hp]
      exact alookup_filter_of_none (alookup_eq_none_of_not_mem_keys hnd.1)
    · simp [alookup, hk] at hl
      cases he : p (k₀, w) <;>
        simp [List.filter_cons, he, alookup, hk, ih hnd.2 hl]

theorem alookup_eraseKey_self {β : Type} (s : List (String × β)) (k : String) :
    alookup (eraseKey s k) k = none := by
  induction s with
  | nil => simp [eraseKey, alookup]
  | cons e t ih =>
    obtain ⟨k₀, w⟩ := e
    by_cases hk : k₀ = k
    · simp [eraseKey, hk, ih]
    · simp [eraseKey, hk, alookup, ih]

theorem mem_eraseKey {β : Type} {s : List (String × β)} {k q : String} {v : β}
    (h : (q, v) ∈ eraseKey s k) : (q, v) ∈ s := by
  induction s with
  | nil => simp [eraseKey] at h
  | cons e t ih =>
    obtain ⟨k₀, w⟩ := e
    by_cases hk : k₀ = k
    · simp [eraseKey, hk] at h
      exact List.mem_cons_of_mem _ (ih h)
    · simp [eraseKey, hk] at h
      rcases h with h | h
      · simp [h]
      · exact List.mem_cons_of_mem _ (ih h)

theorem mem_setKey_sub {β : Type} {s : List (String × β)} {k q : String} {v u : β}
    (h : (q, u) ∈ setKey s k v) : (q, u) = (k, v) ∨ (q, u) ∈ s := by
  induction s with
  | nil =>
    simp only [setKey, List.mem_singleton] at h
    exact Or.inl h
  | cons e t ih =>
    obtain ⟨k₀, w⟩ := e
    by_cases hk : k₀ = k
    · have hs : setKey ((k₀, w) :: t) k v = (k, v) :: t := by simp [setKey, hk]
      rw [hs] at h
      rcases List.mem_cons.1 h with h | h
      · exact Or.inl h
      · exact Or.inr (List.mem_cons_of_mem _ h)
    · have hs : setKey ((k₀, w) :: t) k v = (k₀, w) :: setKey t k v := by
        simp [setKey, hk]
      rw [hs] at h
      rcases List.mem_cons.1 h with h | h
      · exact Or.inr (h ▸ List.mem_cons_self _ _)
      · rcases ih h with h' | h'
        · exact Or.inl h'
        · exact Or.inr (List.mem_cons_of_mem _ h')

theorem mem_keys_setKey {β : Type} {s : List (String × β)} {k q : String} {v : β}
    (h : q ∈ (setKey s k v).map Prod.fst) : q ∈ s.map Prod.fst ∨ q = k := by
  rcases List.mem_map.1 h with ⟨⟨q₀, u⟩, hmem, hfst⟩
  cases hfst
  rcases mem_setKey_sub hmem with h' | h'
  · exact Or.inr (congrArg Prod.fst h')
  · exact Or.inl (List.mem_map.2 ⟨(q₀, u), h', rfl⟩)

theorem nodupKeys_setKey {β : Type} {s : List (String × β)} (k : String) (v : β)
    (hnd : NodupKeys s) : NodupKeys (setKey s k v) := by
  induction s with
  | nil => simp [NodupKeys, setKey]
  | cons e t ih =>
    obtain ⟨k₀, w⟩ := e
    simp only [NodupKeys, List.map_cons, List.nodup_cons] at hnd
    by_cases hk : k₀ = k
    · subst hk
      have hs : setKey ((k₀, w) :: t) k₀ v = (k₀, v) :: t := by simp [setKey]
      rw [NodupKeys, hs]
      simp only [List.map_cons, List.nodup_cons]
      exact hnd
    · have hs : setKey ((k₀, w) :: t) k v = (k₀, w) :: setKey t k v := by
        simp [setKey, hk]
      rw [NodupKeys, hs]
      simp only [List.map_cons, List.nodup_cons]
      refine ⟨fun hmem => ?_, ih hnd.2⟩
      rcases mem_keys_setKey hmem with h' | h'
      · exact hnd.1 h'
      · exact hk h'

theorem nodupKeys_filter {β : Type} {s : List (String × β)} (p : String × β → Bool)
    (hnd : NodupKeys s) : NodupKeys (s.filter p) := by
  exact List.Nodup.sublist (List.Sublist.map Prod.fst (List.filter_sublist s)) hnd

theorem nodupKeys_eraseKey {β : Type} {s : List (String × β)} (k : String)
    (hnd : NodupKeys s) : NodupKeys (eraseKey s k) := by
  induction s with
  | nil => simp [NodupKeys, eraseKey]
  | cons e t ih =>
    obtain ⟨k₀, w⟩ := e
    simp only [NodupKeys, List.map_cons, List.nodup_cons] at hnd
    by_cases hk : k₀ = k
    · simp [eraseKey, hk, ih hnd.2]
    · simp only [NodupKeys, eraseKey, hk, if_false, List.map_cons, List.nodup_cons]
      refine ⟨fun hmem => ?_, ih hnd.2⟩
      simp only [List.mem_map] at hmem
      obtain ⟨⟨q, u⟩, hq, hfst⟩ := hmem
      exact hnd.1 (by
        simp only [List.mem_map]
        exact ⟨(q, u), mem_eraseKey hq, hfst⟩)

theorem mem_setKey_of_nodup {β : Type} {s : List (String × β)} {k q : String} {v u : β}
    (hnd : NodupKeys s) (h : (q, u) ∈ setKey s k v) :
    (q = k ∧ u = v) ∨ ((q, u) ∈ s ∧ q ≠ k) := by
  induction s with
  | nil =>
    simp only [setKey, List.mem_singleton, Prod.mk.injEq] at h
    exact Or.inl h
  | cons e t ih =>
    obtain ⟨k₀, w⟩ := e
    simp only [NodupKeys, List.map_cons, List.nodup_cons] at hnd
    by_cases hk : k₀ = k
    · have hs : setKey ((k₀, w) :: t) k v = (k, v) :: t := by simp [setKey, hk]
      rw [hs] at h
      rcases List.mem_cons.1 h with h | h
      · rw [Prod.mk.injEq] at h
        exact Or.inl h
      · refine Or.inr ⟨List.mem_cons_of_mem _ h, fun hqk => ?_⟩
        apply hnd.1
        rw [hk, ← hqk]
        exact List.mem_map.2 ⟨(q, u), h, rfl⟩
    · have hs : setKey ((k₀, w) :: t) k v = (k₀, w) :: setKey t k v := by
        simp [setKey, hk]
      rw [hs] at h
      rcases List.mem_cons.1 h with h | h
      · rw [Prod.mk.injEq] at h
        obtain ⟨h1, h2⟩ := h
        subst h1; subst h2
        exact Or.inr ⟨List.mem_cons_self _ _, hk⟩
      · rcases ih hnd.2 h with h' | h'
        · exact Or.inl h'
        · exact Or.inr ⟨List.mem_cons_of_mem _ h'.1, h'.2⟩

/-! ## Serialization-size lemmas -/

theorem escapeChar_a : escapeChar 'a' = ['a'] := by decide

theorem escString_replicate_a (n : Nat) :
    escString (List.replicate n 'a') = List.replicate n 'a' := by
  induction n with
  | zero => simp [escString]
  | succ m ih => simp [List.replicate, escString, escapeChar_a, ih]

theorem utf8Len_append (l l' : List Char) :
    utf8Len (l ++ l') = utf8Len l + utf8Len l' := by
  induction l with
  | nil => simp [utf8Len]
  | cons c t ih => simp [utf8Len, ih]; omega

theorem utf8Len_replicate_a (n : Nat) : utf8Len (List.replicate n 'a') = n := by
  induction n with
  | zero => simp [utf8Len]
  | succ m ih =>
    have : ('a').utf8Size = 1 := by decide
    simp [List.replicate, utf8Len, this, ih]
    omega

theorem dataSize_aString (n : Nat) : dataSize (aString n) = n + 2 := by
  have hdata : (String.mk (List.replicate n 'a')).data = List.replicate n 'a' := rfl
  have hq : (Char.ofNat 34).utf8Size = 1 := by decide
  simp [dataSize, aString, stringifyVal, quoteStr, hdata, escString_replicate_a,
    utf8Len, utf8Len_append, utf8Len_replicate_a, hq]
  omega

theorem isFalsy_aString (n : Nat) (h : n ≠ 0) : isFalsyVal (aString n) = false := by
  cases n with
  | zero => exact absurd rfl h
  | succ m => simp [aString, isFalsyVal, List.replicate, List.isEmpty]

/-! ## Auxiliary facts about the write validation gates -/

theorem dataSize_of_falsy {v : JsonValue} (h : isFalsyVal v = true) :
    dataSize v ≤ 5 := by
  cases v with
  | null => decide
  | bool b =>
    cases b with
    | false => decide
    | true => simp [isFalsyVal] at h
  | num n =>
    have hn : n = 0 := by
      have := h
      simp only [isFalsyVal, beq_iff_eq] at this
      exact this
    subst hn
    decide
  | str s =>
    have hd : s.data = [] := by
      simpa [isFalsyVal, List.isEmpty_iff] using h
    simp only [dataSize, stringifyVal, quoteStr, hd]
    decide
  | arr xs => simp [isFalsyVal] at h
  | obj fs => simp [isFalsyVal] at h

/-! ## Claim theorems -/

/-- C1: round-trip.  The Store-level `Put` (`src/app.js` lines 91–97,
`storePut`) followed, with no intervening operation, by a request-level
`Get` at any time `t` before the new expiry returns exactly the stored
JSON value, for every key and every JSON value, under structural
equality. -/
theorem put_get_roundtrip (s : Store) (k : String) (v : JsonValue) (now t : Nat)
    (h : t < now + THIRTY_DAYS_MS) :
    (readRequest (storePut s k v now) k t).resp = ⟨200, .json v⟩ := by
  have h1 : alookup (storePut s k v now) k = some ⟨now + THIRTY_DAYS_MS, v⟩ :=
    alookup_setKey_self s k _
  have h2 : alookup ((removeInactiveUsers (storePut s k v now) t).1) k
      = some ⟨now + THIRTY_DAYS_MS, v⟩ :=
    alookup_filter_of_pos h1 (by simp; omega)
  simp [readRequest, applyReq, readHandler, h2]

/-- Witness for C1: writing `\x7b"a":1\x7d` under key `u` at time 0 and
reading it back at time 0 yields the same object. -/
theorem put_get_roundtrip_witness :
    (readRequest (storePut [] "u" (JsonValue.obj [("a", JsonValue.num 1)]) 0) "u" 0).resp
      = ⟨200, .json (JsonValue.obj [("a", JsonValue.num 1)])⟩ :=
  put_get_roundtrip [] "u" (JsonValue.obj [("a", JsonValue.num 1)]) 0 0
    (by norm_num [THIRTY_DAYS_MS])

/-- C2: expiry.  If the record for `k` carries expiry `wt + 30 days` and a
request-level `Get` arrives at `now ≥ wt + 30 days`, the sweep removes the
record before dispatch and the read handler answers with the empty JSON
object; the expired record is not returned as live and is gone from the
resulting document. -/
theorem get_expired_returns_empty (s : Store) (k : String) (v : JsonValue)
    (wt now : Nat) (hnd : NodupKeys s)
    (hrec : alookup s k = some ⟨wt + THIRTY_DAYS_MS, v⟩)
    (hexp : wt + THIRTY_DAYS_MS ≤ now) :
    (readRequest s k now).resp = ⟨200, .json (.obj [])⟩
    ∧ alookup (readRequest s k now).store k = none := by
  have h1 : alookup ((removeInactiveUsers s now).1) k = none :=
    alookup_filter_of_neg hnd hrec (by simp; omega)
  constructor <;> simp [readRequest, applyReq, readHandler, h1]

/-- Witness for C2: a record written at time 0 and read exactly at the
30-day mark comes back as the empty object. -/
theorem get_expired_returns_empty_witness :
    (readRequest [("u", (⟨0 + THIRTY_DAYS_MS, JsonValue.num 5⟩ : Record))] "u"
        THIRTY_DAYS_MS).resp = ⟨200, .json (.obj [])⟩
    ∧ alookup (readRequest [("u", (⟨0 + THIRTY_DAYS_MS, JsonValue.num 5⟩ : Record))] "u"
        THIRTY_DAYS_MS).store "u" = none :=
  get_expired_returns_empty [("u", (⟨0 + THIRTY_DAYS_MS, JsonValue.num 5⟩ : Record))]
    "u" (JsonValue.num 5) 0 THIRTY_DAYS_MS (by simp [NodupKeys]) rfl (by norm_num)

/-- A request-level read that finds the key after the sweep: the record's
expiry is reset and its value is served. -/
theorem readRequest_hit {s : Store} {k : String} {now : Nat} {r : Record}
    (h : alookup ((removeInactiveUsers s now).1) k = some r) :
    readRequest s k now
      = ⟨setKey (removeInactiveUsers s now).1 k ⟨now + THIRTY_DAYS_MS, r.data⟩, true,
          ⟨200, .json r.data⟩⟩ := by
  simp [readRequest, applyReq, readHandler, h]

/-- C3: refresh-on-read.  A request-level `Get` at `rt` before the expiry
`wt + 30 days` resets the record's expiry to `rt + 30 days` and returns
the value; a second `Get` at `wt + 30 days + 1` — past the original
expiry but (per the claim's parenthetical) within the refreshed window —
still returns the value. -/
theorem refresh_on_read (s : Store) (k : String) (v : JsonValue) (wt rt : Nat)
    (hrec : alookup s k = some ⟨wt + THIRTY_DAYS_MS, v⟩)
    (hbefore : rt < wt + THIRTY_DAYS_MS)
    (hwithin : wt + THIRTY_DAYS_MS + 1 < rt + THIRTY_DAYS_MS) :
    alookup (readRequest s k rt).store k = some ⟨rt + THIRTY_DAYS_MS, v⟩
    ∧ (readRequest s k rt).resp = ⟨200, .json v⟩
    ∧ (readRequest (readRequest s k rt).store k (wt + THIRTY_DAYS_MS + 1)).resp
        = ⟨200, .json v⟩ := by
  have h1 : alookup ((removeInactiveUsers s rt).1) k
      = some ⟨wt + THIRTY_DAYS_MS, v⟩ :=
    alookup_filter_of_pos hrec (by simp; omega)
  have h2 : alookup (readRequest s k rt).store k = some ⟨rt + THIRTY_DAYS_MS, v⟩ := by
    simp [readRequest, applyReq, readHandler, h1, alookup_setKey_self]
  refine ⟨h2, ?_, ?_⟩
  · simp [readRequest, applyReq, readHandler, h1]
  · have h3 : alookup ((removeInactiveUsers (readRequest s k rt).store
        (wt + THIRTY_DAYS_MS + 1)).1) k = some ⟨rt + THIRTY_DAYS_MS, v⟩ :=
      alookup_filter_of_pos h2 (by simp; omega)
    rw [readRequest_hit h3]

/-- Witness for C3: written at 0, read at 2, read again 1 ms past the
original 30-day expiry; the value is still served. -/
theorem refresh_on_read_witness :
    alookup (readRequest [("u", (⟨0 + THIRTY_DAYS_MS, JsonValue.str "x"⟩ : Record))]
        "u" 2).store "u" = some ⟨2 + THIRTY_DAYS_MS, JsonValue.str "x"⟩
    ∧ (readRequest [("u", (⟨0 + THIRTY_DAYS_MS, JsonValue.str "x"⟩ : Record))]
        "u" 2).resp = ⟨200, .json (JsonValue.str "x")⟩
    ∧ (readRequest (readRequest [("u", (⟨0 + THIRTY_DAYS_MS, JsonValue.str "x"⟩ : Record))]
        "u" 2).store "u" (0 + THIRTY_DAYS_MS + 1)).resp
        = ⟨200, .json (JsonValue.str "x")⟩ :=
  refresh_on_read [("u", (⟨0 + THIRTY_DAYS_MS, JsonValue.str "x"⟩ : Record))] "u"
    (JsonValue.str "x") 0 2 rfl
    (by norm_num [THIRTY_DAYS_MS]) (by norm_num [THIRTY_DAYS_MS])

/-- C4: the sweep removes exactly the records with `timeRemove ≤ now`
(expiry equal to `now` is removed), reports a rewrite of the persisted
document exactly when some record was removed, and leaves the document
untouched when nothing is expired. -/
theorem sweep_removes_expired_exactly (s : Store) (now : Nat) (k : String) (r : Record) :
    ((k, r) ∈ (removeInactiveUsers s now).1 ↔ ((k, r) ∈ s ∧ now < r.timeRemove))
    ∧ ((removeInactiveUsers s now).2 = true
        ↔ ∃ q u, (q, u) ∈ s ∧ Record.timeRemove u ≤ now)
    ∧ ((removeInactiveUsers s now).2 = false → (removeInactiveUsers s now).1 = s) := by
  refine ⟨?_, ?_, ?_⟩
  · simp [removeInactiveUsers, List.mem_filter]
  · simp [removeInactiveUsers, List.any_eq_true, Prod.exists]
  · intro h
    simp only [removeInactiveUsers]
    apply List.filter_eq_self.2
    intro a ha
    by_contra hc
    simp only [decide_eq_true_eq, Nat.not_lt] at hc
    have hany : s.any (fun e => decide (e.2.timeRemove ≤ now)) = true :=
      List.any_eq_true.2 ⟨a, ha, by simp [hc]⟩
    simp only [removeInactiveUsers] at h
    rw [hany] at h
    exact Bool.noConfusion h

/-- Witness for C4: a record whose expiry equals the sweep time is
removed, and the modified flag is set. -/
theorem sweep_removes_expired_exactly_witness :
    (removeInactiveUsers [("u", (⟨5, JsonValue.null⟩ : Record))] 5).2 = true := by
  have h := sweep_removes_expired_exactly [("u", ⟨5, JsonValue.null⟩)] 5 "u"
    ⟨5, JsonValue.null⟩
  exact h.2.1.2 ⟨"u", ⟨5, JsonValue.null⟩, by simp, by simp⟩

/-- C5: deleting an absent key answers 404 "not found" and leaves the
document unchanged and unpersisted, no matter how many times the call is
repeated; deleting a present key removes it, persists, and answers 200
confirmation text. -/
theorem delete_handler_spec (s : Store) (k : String) :
    (alookup s k = none →
      deleteHandler s k
          = ⟨s, false, ⟨404, .text ("No data found for user " ++ k)⟩⟩
        ∧ ∀ n, (iterDelete s k n).store = s
            ∧ (iterDelete s k n).resp = ⟨404, .text ("No data found for user " ++ k)⟩)
    ∧ (∀ r, alookup s k = some r →
        deleteHandler s k
            = ⟨eraseKey s k, true,
                ⟨200, .text ("Data for user " ++ k ++ " has been deleted")⟩⟩
          ∧ alookup (eraseKey s k) k = none) := by
  constructor
  · intro h
    have hd : deleteHandler s k
        = ⟨s, false, ⟨404, .text ("No data found for user " ++ k)⟩⟩ := by
      simp [deleteHandler, h]
    refine ⟨hd, ?_⟩
    intro n
    induction n with
    | zero => simp [iterDelete, hd]
    | succ m ih =>
      constructor
      · simp [iterDelete, ih.1, hd]
      · simp [iterDelete, ih.1, hd]
  · intro r h
    refine ⟨by simp [deleteHandler, h], alookup_eraseKey_self s k⟩

/-- Witness for C5: delete of the unknown key `v` answers 404 twice in a
row without touching the store; delete of the present key `u` removes it
and answers 200. -/
theorem delete_handler_spec_witness :
    deleteHandler [("u", (⟨10, JsonValue.num 1⟩ : Record))] "v"
        = ⟨[("u", ⟨10, JsonValue.num 1⟩)], false,
            ⟨404, .text ("No data found for user " ++ "v")⟩⟩
    ∧ (iterDelete [("u", (⟨10, JsonValue.num 1⟩ : Record))] "v" 1).resp
        = ⟨404, .text ("No data found for user " ++ "v")⟩
    ∧ deleteHandler [("u", (⟨10, JsonValue.num 1⟩ : Record))] "u"
        = ⟨eraseKey [("u", ⟨10, JsonValue.num 1⟩)] "u", true,
            ⟨200, .text ("Data for user " ++ "u" ++ " has been deleted")⟩⟩ :=
  ⟨((delete_handler_spec [("u", ⟨10, JsonValue.num 1⟩)] "v").1 rfl).1,
   (((delete_handler_spec [("u", ⟨10, JsonValue.num 1⟩)] "v").1 rfl).2 1).2,
   ((delete_handler_spec [("u", ⟨10, JsonValue.num 1⟩)] "u").2
      ⟨10, JsonValue.num 1⟩ rfl).1⟩

/-- C6: a write whose serialized payload exceeds `MAX_JSON_SIZE` is
rejected with status 400 and the size-limit message, the document is
returned exactly unchanged, and `writeData` is not called, so neither
memory nor disk changes. -/
theorem write_oversize_rejected (s : Store) (k : String) (v : JsonValue) (now : Nat)
    (h : MAX_JSON_SIZE < dataSize v) :
    writeHandler s k (some v) now
      = ⟨s, false, ⟨400, .text "JSON size exceeds the maximum limit of 5 MB"⟩⟩ := by
  have hf : isFalsyVal v = false := by
    cases hfv : isFalsyVal v
    · rfl
    · have hsmall := dataSize_of_falsy hfv
      have hM : MAX_JSON_SIZE = 5242880 := rfl
      omega
  simp [writeHandler, hf, h]

/-- Witness for C6: a 6000002-byte string payload is rejected and the
empty store stays empty. -/
theorem write_oversize_rejected_witness :
    writeHandler [] "u" (some (aString 6000000)) 0
      = ⟨[], false, ⟨400, .text "JSON size exceeds the maximum limit of 5 MB"⟩⟩ :=
  write_oversize_rejected [] "u" (aString 6000000) 0
    (by rw [dataSize_aString]; norm_num [MAX_JSON_SIZE])

/-- C8: the `GET /dbinfo` handler answers 200 but its body is the HTML
fragment of `res.send`, never a JSON document, so the machine-readable
form with `usedSize` / `remainingSize` / `maxDbSize` promised by the
repository's own documentation page is not obtainable; the handler leaves
the store untouched. -/
theorem dbinfo_html_not_json (s : Store) (fileSize : Nat) :
    (dbinfoHandler s fileSize).resp.status = 200
    ∧ isJsonBody (dbinfoHandler s fileSize).resp.body = false
    ∧ (dbinfoHandler s fileSize).store = s
    ∧ (dbinfoHandler s fileSize).persisted = false :=
  ⟨rfl, rfl, rfl, rfl⟩

/-- C9: a `json` field holding any of the falsy JSON values `null`,
`false`, `0`, `""` is bounced exactly like an absent field — 400 with
"Missing json body parameter" — leaving the document unchanged, while the
empty object is truthy and gets written. -/
theorem write_falsy_json_rejected (s : Store) (k : String) (now : Nat) :
    (∀ v, v ∈ [JsonValue.null, JsonValue.bool false, JsonValue.num 0, JsonValue.str ""] →
      writeHandler s k (some v) now = writeHandler s k none now
        ∧ writeHandler s k (some v) now
            = ⟨s, false, ⟨400, .text "Missing json body parameter"⟩⟩)
    ∧ writeHandler s k (some (JsonValue.obj [])) now
        = ⟨setKey s k ⟨now + THIRTY_DAYS_MS, JsonValue.obj []⟩, true,
            ⟨200, .text ("Data for user " ++ k ++ " has been written")⟩⟩ := by
  constructor
  · intro v hv
    have hfv : isFalsyVal v = true := by
      fin_cases hv <;> decide
    exact ⟨by simp [writeHandler, hfv], by simp [writeHandler, hfv]⟩
  · have hfv : isFalsyVal (JsonValue.obj []) = false := rfl
    have hsize : ¬ MAX_JSON_SIZE < dataSize (JsonValue.obj []) := by decide
    simp [writeHandler, hfv, hsize]

/-- Witness for C9: `null` is rejected like a missing field; `\x7b\x7d`
is accepted and stored with a fresh 30-day expiry. -/
theorem write_falsy_json_rejected_witness :
    writeHandler [] "u" (some JsonValue.null) 0
      = ⟨[], false, ⟨400, .text "Missing json body parameter"⟩⟩
    ∧ writeHandler [] "u" (some (JsonValue.obj [])) 0
      = ⟨setKey [] "u" ⟨0 + THIRTY_DAYS_MS, JsonValue.obj []⟩, true,
          ⟨200, .text ("Data for user " ++ "u" ++ " has been written")⟩⟩ :=
  ⟨((write_falsy_json_rejected [] "u" 0).1 JsonValue.null (by simp)).2,
   (write_falsy_json_rejected [] "u" 0).2⟩

/-- C10: the size gate measures the serialized inner `json` value alone
(`dataSize`, i.e. `Buffer.byteLength(JSON.stringify(json))`, without the
request wrapper), compares it strictly against `MAX_JSON_SIZE = 5242880`:
at most 5242880 bytes is accepted and written, strictly more is
rejected. -/
theorem write_size_check_strict (s : Store) (k : String) (v : JsonValue) (now : Nat)
    (htruthy : isFalsyVal v = false) :
    MAX_JSON_SIZE = 5242880
    ∧ (dataSize v ≤ MAX_JSON_SIZE →
        writeHandler s k (some v) now
          = ⟨setKey s k ⟨now + THIRTY_DAYS_MS, v⟩, true,
              ⟨200, .text ("Data for user " ++ k ++ " has been written")⟩⟩)
    ∧ (MAX_JSON_SIZE < dataSize v →
        writeHandler s k (some v) now
          = ⟨s, false, ⟨400, .text "JSON size exceeds the maximum limit of 5 MB"⟩⟩) := by
  refine ⟨rfl, fun h => ?_, fun h => ?_⟩
  · simp [writeHandler, htruthy, Nat.not_lt.2 h]
  · simp [writeHandler, htruthy, h]

/-- Witness for C10 at the exact boundary: a payload serializing to
exactly 5242880 bytes is accepted, one of 5242881 bytes is rejected. -/
theorem write_size_check_strict_witness :
    dataSize (aString 5242878) = 5242880
    ∧ writeHandler [] "u" (some (aString 5242878)) 0
        = ⟨setKey [] "u" ⟨0 + THIRTY_DAYS_MS, aString 5242878⟩, true,
            ⟨200, .text ("Data for user " ++ "u" ++ " has been written")⟩⟩
    ∧ dataSize (aString 5242879) = 5242881
    ∧ writeHandler [] "u" (some (aString 5242879)) 0
        = ⟨[], false, ⟨400, .text "JSON size exceeds the maximum limit of 5 MB"⟩⟩ :=
  ⟨dataSize_aString 5242878,
   (write_size_check_strict [] "u" (aString 5242878) 0
        (isFalsy_aString 5242878 (by norm_num))).2.1
      (by rw [dataSize_aString]; norm_num [MAX_JSON_SIZE]),
   dataSize_aString 5242879,
   (write_size_check_strict [] "u" (aString 5242879) 0
        (isFalsy_aString 5242879 (by norm_num))).2.2
      (by rw [dataSize_aString]; norm_num [MAX_JSON_SIZE])⟩

/-! ## The retention invariant (C7) -/

/-- Step invariant for request traces: starting from a document with
unique keys in which every record's expiry is 30 days past its recorded
last access, running any request trace preserves both facts, with the
last-access map maintained by `touchUpd`. -/
theorem runRequests_inv (tr : List (Req × Nat)) :
    ∀ (s : Store) (aux : List (String × Nat)),
      NodupKeys s →
      (∀ k r, (k, r) ∈ s → ∃ t, alookup aux k = some t
          ∧ r.timeRemove = t + THIRTY_DAYS_MS) →
      NodupKeys (runRequests s aux tr).1
      ∧ ∀ k r, (k, r) ∈ (runRequests s aux tr).1 →
          ∃ t, alookup (runRequests s aux tr).2 k = some t
            ∧ r.timeRemove = t + THIRTY_DAYS_MS := by
  induction tr with
  | nil =>
    intro s aux hnd hinv
    exact ⟨hnd, hinv⟩
  | cons step rest ih =>
    obtain ⟨req, now⟩ := step
    intro s aux hnd hinv
    have hnd₁ : NodupKeys (removeInactiveUsers s now).1 := nodupKeys_filter _ hnd
    have hinv₁ : ∀ k r, (k, r) ∈ (removeInactiveUsers s now).1 →
        ∃ t, alookup aux k = some t ∧ r.timeRemove = t + THIRTY_DAYS_MS := by
      intro k r hm
      exact hinv k r (List.mem_filter.1 hm).1
    have hrun : runRequests s aux ((req, now) :: rest)
        = runRequests (applyReq s req now).store (touchUpd s aux req now) rest := rfl
    rw [hrun]
    cases req with
    | write k b =>
      cases b with
      | none =>
        have ha : (applyReq s (.write k none) now).store
            = (removeInactiveUsers s now).1 := rfl
        have ht : touchUpd s aux (.write k none) now = aux := rfl
        rw [ha, ht]
        exact ih _ aux hnd₁ hinv₁
      | some v =>
        by_cases hfv : isFalsyVal v = true
        · have ha : (applyReq s (.write k (some v)) now).store
              = (removeInactiveUsers s now).1 := by
            simp [applyReq, writeHandler, hfv]
          have ht : touchUpd s aux (.write k (some v)) now = aux := by
            simp [touchUpd, hfv]
          rw [ha, ht]
          exact ih _ aux hnd₁ hinv₁
        · rw [Bool.not_eq_true] at hfv
          by_cases hsz : MAX_JSON_SIZE < dataSize v
          · have ha : (applyReq s (.write k (some v)) now).store
                = (removeInactiveUsers s now).1 := by
              simp [applyReq, writeHandler, hfv, hsz]
            have ht : touchUpd s aux (.write k (some v)) now = aux := by
              simp [touchUpd, hfv, hsz]
            rw [ha, ht]
            exact ih _ aux hnd₁ hinv₁
          · have ha : (applyReq s (.write k (some v)) now).store
                = setKey (removeInactiveUsers s now).1 k ⟨now + THIRTY_DAYS_MS, v⟩ := by
              simp [applyReq, writeHandler, hfv, hsz]
            have ht : touchUpd s aux (.write k (some v)) now = setKey aux k now := by
              simp [touchUpd, hfv, hsz]
            rw [ha, ht]
            refine ih _ _ (nodupKeys_setKey _ _ hnd₁) ?_
            intro q r hm
            rcases mem_setKey_of_nodup hnd₁ hm with ⟨hq, hr⟩ | ⟨hm', hq⟩
            · subst hq; subst hr
              exact ⟨now, alookup_setKey_self aux q now, rfl⟩
            · obtain ⟨t, hat, hrt⟩ := hinv₁ q r hm'
              exact ⟨t, by rw [alookup_setKey_ne aux now hq]; exact hat, hrt⟩
    | read k =>
      cases hlk : alookup (removeInactiveUsers s now).1 k with
      | none =>
        have ha : (applyReq s (.read k) now).store
            = (removeInactiveUsers s now).1 := by
          simp [applyReq, readHandler, hlk]
        have ht : touchUpd s aux (.read k) now = aux := by
          simp [touchUpd, hlk]
        rw [ha, ht]
        exact ih _ aux hnd₁ hinv₁
      | some r₀ =>
        have ha : (applyReq s (.read k) now).store
            = setKey (removeInactiveUsers s now).1 k
                ⟨now + THIRTY_DAYS_MS, r₀.data⟩ := by
          simp [applyReq, readHandler, hlk]
        have ht : touchUpd s aux (.read k) now = setKey aux k now := by
          simp [touchUpd, hlk]
        rw [ha, ht]
        refine ih _ _ (nodupKeys_setKey _ _ hnd₁) ?_
        intro q r hm
        rcases mem_setKey_of_nodup hnd₁ hm with ⟨hq, hr⟩ | ⟨hm', hq⟩
        · subst hq; subst hr
          exact ⟨now, alookup_setKey_self aux q now, rfl⟩
        · obtain ⟨t, hat, hrt⟩ := hinv₁ q r hm'
          exact ⟨t, by rw [alookup_setKey_ne aux now hq]; exact hat, hrt⟩
    | delete k =>
      cases hlk : alookup (removeInactiveUsers s now).1 k with
      | none =>
        have ha : (applyReq s (.delete k) now).store
            = (removeInactiveUsers s now).1 := by
          simp [applyReq, deleteHandler, hlk]
        have ht : touchUpd s aux (.delete k) now = aux := rfl
        rw [ha, ht]
        exact ih _ aux hnd₁ hinv₁
      | some r₀ =>
        have ha : (applyReq s (.delete k) now).store
            = eraseKey (removeInactiveUsers s now).1 k := by
          simp [applyReq, deleteHandler, hlk]
        have ht : touchUpd s aux (.delete k) now = aux := rfl
        rw [ha, ht]
        refine ih _ aux (nodupKeys_eraseKey _ hnd₁) ?_
        intro q r hm
        exact hinv₁ q r (mem_eraseKey hm)
    | dbinfo fs =>
      have ha : (applyReq s (.dbinfo fs) now).store
          = (removeInactiveUsers s now).1 := rfl
      have ht : touchUpd s aux (.dbinfo fs) now = aux := rfl
      rw [ha, ht]
      exact ih _ aux hnd₁ hinv₁

/-- C7: retention invariant.  Over any request trace from the empty
document, every record still present has `timeRemove` equal to the
timestamp of its most recent successful write or successful read plus the
fixed 30-day window; the invariant is preserved by every operation —
write, read, delete and the sweep that precedes each of them. -/
theorem retention_invariant (tr : List (Req × Nat)) (k : String) (r : Record)
    (h : alookup (runRequests [] [] tr).1 k = some r) :
    ∃ t, lastAccessTime tr k = some t ∧ r.timeRemove = t + THIRTY_DAYS_MS := by
  have hmain := runRequests_inv tr [] []
    (by simp [NodupKeys]) (by intro k r hm; simp at hm)
  exact hmain.2 k r (mem_of_alookup h)

/-- Witness for C7: write at time 3, read at time 10; the surviving
record expires at `10 + 30 days`, i.e. last access 10 plus the window. -/
theorem retention_invariant_witness :
    ∃ t, lastAccessTime
        [(Req.write "u" (some (JsonValue.num 1)), 3), (Req.read "u", 10)] "u" = some t
      ∧ (⟨10 + THIRTY_DAYS_MS, JsonValue.num 1⟩ : Record).timeRemove
          = t + THIRTY_DAYS_MS :=
  retention_invariant
    [(Req.write "u" (some (JsonValue.num 1)), 3), (Req.read "u", 10)] "u"
    ⟨10 + THIRTY_DAYS_MS, JsonValue.num 1⟩ rfl
